import Mathlib

/-!
# tsh: a tiny shell with job control

A shallow embedding of the job-control core of `src/tsh.c`: the job table
(`clearjob`, `initjobs`, `maxjid`, `addjob`, `deletejob`, `fgpid`,
`getjobpid`, `getjobjid`, `pid2jid`), the signal handlers
(`sigchld_handler`, `sigint_handler`, `sigtstp_handler`), the `fg`/`bg`
built-in (`do_bgfg`), `waitfg`, the parent side of `eval` and the tokenizer
`parseline`.

Conventions of the embedding.

* A C `int` (and `pid_t`) is an `Int`; the three arithmetic operations the
  code performs on them (`nextjid++`, `maxjid(jobs)+1`, `-pid`) go through
  `wrapInt`, two's-complement wrap-around at 32 bits.
* The array `jobs[MAXJOBS]` is a list of slots; a `for (i = 0; i < MAXJOBS; i++)`
  loop that leaves at the first slot passing a test is `firstIdx`.
* The globals `jobs`, `nextjid`, `verbose` and the two observable effects
  (text written to stdout, signals sent with `kill`) make up `Shell`.
* A C string is a `String`, its length in bytes `String.utf8ByteSize`; a write
  past a buffer or through a null pointer is a fault, the result `none`.
* A `char *` that moves along a buffer is the list of characters it points to.
-/

namespace Tsh

/-! ## Constants -/

/-- The constant `MAXLINE`: max line size. -/
def MAXLINE : Nat := 1024

/-- The constant `MAXJOBS`: max jobs at any point in time. -/
def MAXJOBS : Nat := 16

/-- Job state `UNDEF`. -/
def UNDEF : Int := 0

/-- Job state `FG`: running in foreground. -/
def FG : Int := 1

/-- Job state `BG`: running in background. -/
def BG : Int := 2

/-- Job state `ST`: stopped. -/
def ST : Int := 3

/-- Signal number of `SIGCONT` (the value of `<signal.h>` on Linux). -/
def SIGCONT : Int := 18

/-! ## Machine integers -/

/-- Wrap-around of an integer into the range of a 32-bit `int`. -/
def wrapInt (x : Int) : Int := (x + 2147483648) % 4294967296 - 2147483648

/-- The C expression `a + b` on `int`. -/
def intAdd (a b : Int) : Int := wrapInt (a + b)

/-- The C expression `-a` on `int`. -/
def intNeg (a : Int) : Int := wrapInt (-a)

/-! ## Data model -/

/-- The struct `job_t`. -/
structure job_t where
  pid : Int
  jid : Int
  state : Int
  cmdline : String
deriving DecidableEq, Inhabited

/-- The globals `jobs`, `nextjid`, `verbose`, with the text written to
stdout so far (`out`, one entry per `printf`) and the signals sent so far
(`kills`, one `(target, signal)` entry per `kill`). -/
structure Shell where
  jobs : List job_t
  nextjid : Int
  verbose : Bool
  out : List String
  kills : List (Int × Int)
deriving DecidableEq

/-- The conversion `%d` of `printf`. -/
def fmt_d (i : Int) : String := toString i

/-- Index of the first slot passing the test `p`: the loop
`for (i = 0; i < MAXJOBS; i++) if (p(jobs[i])) ...` that leaves at the first hit. -/
def firstIdx (p : job_t → Bool) : List job_t → Option Nat
  | [] => none
  | j :: js => if p j then some 0 else (firstIdx p js).map (· + 1)

/-- The library call `strcpy` into a buffer of `cap` bytes: the bytes of the
source and its terminating NUL have to fit. -/
def strcpy (cap : Nat) (src : String) : Option String :=
  if src.utf8ByteSize < cap then some src else none

/-! ## Job list helpers -/

/-- The function `clearjob`: clear the entries in a job struct. -/
def clearjob (_job : job_t) : job_t :=
  { pid := 0, jid := 0, state := UNDEF, cmdline := "" }

/-- The function `initjobs`: initialize the job list. -/
def initjobs (jobs : List job_t) : List job_t := jobs.map clearjob

/-- The function `maxjid`: largest allocated job ID. -/
def maxjid (jobs : List job_t) : Int :=
  jobs.foldl (fun max j => if j.jid > max then j.jid else max) 0

/-- The function `addjob`: add a job to the job list. The result is the
return value and the new globals. -/
def addjob (s : Shell) (pid state : Int) (cmdline : String) : Option (Int × Shell) :=
  if pid < 1 then some (0, s)
  else
    match firstIdx (fun j => j.pid == 0) s.jobs with
    | some i =>
      let jid := s.nextjid
      let n := intAdd s.nextjid 1
      let n := if n > (MAXJOBS : Int) then 1 else n
      match strcpy MAXLINE cmdline with
      | none => none
      | some c =>
        let job : job_t := { pid := pid, jid := jid, state := state, cmdline := c }
        let out := if s.verbose then
            s.out ++ ["Added job [" ++ fmt_d job.jid ++ "] " ++ fmt_d job.pid ++ " " ++ job.cmdline ++ "\n"]
          else s.out
        some (1, { s with jobs := s.jobs.set i job, nextjid := n, out := out })
    | none => some (0, { s with out := s.out ++ ["Tried to create too many jobs\n"] })

/-- The function `deletejob`: delete a job whose PID=pid from the job list. -/
def deletejob (s : Shell) (pid : Int) : Int × Shell :=
  if pid < 1 then (0, s)
  else
    match firstIdx (fun j => j.pid == pid) s.jobs with
    | some i =>
      let jobs := s.jobs.modify clearjob i
      (1, { s with jobs := jobs, nextjid := intAdd (maxjid jobs) 1 })
    | none => (0, s)

/-- The function `fgpid`: PID of current foreground job, 0 if no such job. -/
def fgpid (jobs : List job_t) : Int :=
  match firstIdx (fun j => j.state == FG) jobs with
  | some i =>
    match jobs[i]? with
    | some j => j.pid
    | none => 0
  | none => 0

/-- The function `getjobpid`: find a job (by PID) on the job list. The result
is the index of the slot, `none` for NULL. -/
def getjobpid (jobs : List job_t) (pid : Int) : Option Nat :=
  if pid < 1 then none else firstIdx (fun j => j.pid == pid) jobs

/-- The function `getjobjid`: find a job (by JID) on the job list. The result
is the index of the slot, `none` for NULL. -/
def getjobjid (jobs : List job_t) (jid : Int) : Option Nat :=
  if jid < 1 then none else firstIdx (fun j => j.jid == jid) jobs

/-- The function `pid2jid`: map process ID to job ID. -/
def pid2jid (s : Shell) (pid : Int) : Int :=
  if pid < 1 then 0
  else
    match firstIdx (fun j => j.pid == pid) s.jobs with
    | some i =>
      match s.jobs[i]? with
      | some j => j.jid
      | none => 0
    | none => 0

/-- The job list of a freshly started shell: the zero-initialised static array
after `initjobs`. -/
def jobs0 : List job_t :=
  initjobs (List.replicate MAXJOBS { pid := 0, jid := 0, state := 0, cmdline := "" })

/-- The globals when `main` enters its read/eval loop. -/
def shell0 : Shell :=
  { jobs := jobs0, nextjid := 1, verbose := false, out := [], kills := [] }

/-! ## Signal handlers -/

/-- The status `waitpid(-1, &status, WNOHANG|WUNTRACED)` stores for a child:
`WIFEXITED`, `WIFSIGNALED` with `WTERMSIG`, or `WIFSTOPPED` with `WSTOPSIG`. -/
inductive wstatus where
  | exited (code : Int)
  | signaled (sig : Int)
  | stopped (sig : Int)
deriving DecidableEq

/-- The assignment `job->state = st` through a pointer to slot `i`. -/
def setState (jobs : List job_t) (i : Nat) (st : Int) : List job_t :=
  jobs.modify (fun j => { j with state := st }) i

/-- The body of the loop of `sigchld_handler`, for one child `pid` reaped with
`status`. The three tests on `status` exclude one another. `none` is the write
through the null pointer `getjobpid` returned. -/
def sigchld_body (s : Shell) (pid : Int) (status : wstatus) : Option Shell :=
  match status with
  | wstatus.exited _ => some (deletejob s pid).2
  | wstatus.stopped sig =>
    match getjobpid s.jobs pid with
    | none => none
    | some i =>
      let s1 : Shell := { s with jobs := setState s.jobs i ST }
      some { s1 with out := s1.out ++
        ["Job [" ++ fmt_d (pid2jid s1 pid) ++ "] (" ++ fmt_d pid ++ ") stopped by signal "
          ++ fmt_d sig ++ "\n"] }
  | wstatus.signaled sig =>
    let s1 : Shell := { s with out := s.out ++
      ["Job [" ++ fmt_d (pid2jid s pid) ++ "] (" ++ fmt_d pid ++ ") terminated by signal "
        ++ fmt_d sig ++ "\n"] }
    some (deletejob s1 pid).2

/-- The function `sigchld_handler`. The list holds what the successive calls of
`waitpid` return, a pid with its status; the loop ends at the first pid that is
not positive (the end of the list: no child has changed state). -/
def sigchld_handler (s : Shell) : List (Int × wstatus) → Option Shell
  | [] => some s
  | (pid, status) :: rest =>
    if pid > 0 then
      match sigchld_body s pid status with
      | none => none
      | some s1 => sigchld_handler s1 rest
    else some s

/-- The call `kill(-pid, sig)` on the job of slot `i`. -/
def killSlot (s : Shell) (i : Nat) (sig : Int) : Shell :=
  match s.jobs[i]? with
  | some j => { s with kills := s.kills ++ [(intNeg j.pid, sig)] }
  | none => s

/-- The function `sigint_handler`: the first slot with `pid != 0` whose state
is `FG` gets the signal. -/
def sigint_handler (s : Shell) (sig : Int) : Shell :=
  match firstIdx (fun j => j.pid != 0 && j.state == FG) s.jobs with
  | some i => killSlot s i sig
  | none => s

/-- The function `sigtstp_handler`: the first slot in state `FG` whose pid is
not 0 gets the signal. -/
def sigtstp_handler (s : Shell) (sig : Int) : Shell :=
  match firstIdx (fun j => j.state == FG && j.pid != 0) s.jobs with
  | some i => killSlot s i sig
  | none => s

/-! ## The built-in commands `fg` and `bg` -/

/-- The test `isspace` of `<ctype.h>` in the C locale. -/
def isspace (c : Char) : Bool :=
  c == ' ' || c == '\t' || c == '\n' || c == '\r' || c.toNat == 11 || c.toNat == 12

/-- The digits of `atoi`: the value of the longest run of decimal digits. -/
def atoiDigits : List Char → Int → Int
  | [], acc => acc
  | c :: cs, acc => if c.isDigit then atoiDigits cs (acc * 10 + ((c.toNat : Int) - 48)) else acc

/-- The value `strtol` returns for a number outside the range of `long`
(64 bits): `LONG_MAX` or `LONG_MIN`. -/
def clampLong (x : Int) : Int :=
  if x > 9223372036854775807 then 9223372036854775807
  else if x < -9223372036854775808 then -9223372036854775808
  else x

/-- The library call `atoi`, which is `(int) strtol(nptr, NULL, 10)`: white
space, an optional sign, decimal digits; `strtol` saturates at the ends of the
range of `long`, and the conversion to `int` keeps the low 32 bits. -/
def atoi (cs : List Char) : Int :=
  match cs.dropWhile isspace with
  | '-' :: r => wrapInt (clampLong (- atoiDigits r 0))
  | '+' :: r => wrapInt (clampLong (atoiDigits r 0))
  | r => wrapInt (clampLong (atoiDigits r 0))

/-- The statements `do_bgfg` runs on a job it has found, the same in its
`%jobid` and its PID branch: `kill(-pid, SIGCONT)`, then for `fg` the state
becomes `FG` and `waitfg(pid)` is called, for `bg` the job is printed and its
state becomes `BG`. The second component is the pid `waitfg` is called with.
`none` is the access through the null pointer `getjobpid` returned. -/
def bgfg_resume (s : Shell) (cmd : String) (pid : Int) : Option (Shell × Option Int) :=
  let s1 : Shell := { s with kills := s.kills ++ [(intNeg pid, SIGCONT)] }
  if cmd = "fg" then
    match getjobpid s1.jobs pid with
    | none => none
    | some i => some ({ s1 with jobs := setState s1.jobs i FG }, some pid)
  else if cmd = "bg" then
    match getjobpid s1.jobs pid with
    | none => none
    | some i =>
      match s1.jobs[i]? with
      | none => none
      | some job =>
        some ({ s1 with
          out := s1.out ++ ["[" ++ fmt_d job.jid ++ "] (" ++ fmt_d job.pid ++ ") " ++ job.cmdline],
          jobs := setState s1.jobs i BG }, none)
  else some (s1, none)

/-- The function `do_bgfg`: execute the builtin `bg` and `fg` commands. `argv`
is the argument vector up to its terminating NULL. The second component of the
result is the pid `waitfg` is called with, if it is called. -/
def do_bgfg (s : Shell) (argv : List String) : Option (Shell × Option Int) :=
  match argv with
  | [] => none
  | cmd :: rest =>
    match rest.head? with
    | none =>
      some ({ s with out := s.out ++ [cmd ++ " command requires PID or %jobid argument\n"] }, none)
    | some pidOrjid =>
      if pidOrjid.data.head? = some '%' then
        let jid := atoi pidOrjid.data.tail
        match getjobjid s.jobs jid with
        | none => some ({ s with out := s.out ++ [pidOrjid ++ ": No such job\n"] }, none)
        | some k =>
          match s.jobs[k]? with
          | none => none
          | some job => bgfg_resume s cmd job.pid
      else if (pidOrjid.data.head?.map Char.isDigit) = some true then
        let pid := atoi pidOrjid.data
        match getjobpid s.jobs pid with
        | none =>
          some ({ s with out := s.out ++ ["(" ++ fmt_d pid ++ "): No such process\n"] }, none)
        | some _ => bgfg_resume s cmd pid
      else
        some ({ s with out := s.out ++ [cmd ++ ": argument must be a PID or %jobid\n"] }, none)

/-! ## Waiting for the foreground job, launching a job -/

/-- The first loop of `waitfg`: is `pid` in the job list? If it is, `waitfg`
enters `while (pid == fgpid(jobs)) sleep(1)`, the result `some pid`; if it is
not, `waitfg` returns at once, the result `none`. -/
def waitfg_enter (jobs : List job_t) (pid : Int) : Option Int :=
  match firstIdx (fun j => j.pid == pid) jobs with
  | some _ => some pid
  | none => none

/-- The parent side of `eval` after `fork` has returned `pid`, for a command
line that is no built-in: `addjob` with `FG` and a call of `waitfg(pid)`, or
`addjob` with `BG` and the line that announces the job. The second component
is the pid `waitfg` is called with. -/
def eval_parent (s : Shell) (pid : Int) (bg : Bool) (cmdline : String) :
    Option (Shell × Option Int) :=
  if !bg then
    match addjob s pid FG cmdline with
    | none => none
    | some (_, s1) => some (s1, some pid)
  else
    match addjob s pid BG cmdline with
    | none => none
    | some (_, s1) =>
      some ({ s1 with out := s1.out ++
        ["[" ++ fmt_d (pid2jid s1 pid) ++ "] (" ++ fmt_d pid ++ ") " ++ cmdline] }, none)

/-- The two halves of `do_bgfg` around the point where a signal handler can
find the main flow holding a pointer into the job list. The first half runs
from the entry of `do_bgfg` to the evaluation of `getjobpid(jobs, pid)` in
`getjobpid(jobs, pid)->state = FG` (or in `job = getjobpid(jobs, pid)` for
`bg`): the argument is looked up, `kill(-pid, SIGCONT)` is sent, and the
result is the command, the pid and the slot the pointer refers to. `none` when
`do_bgfg` does not get that far. -/
def bgfg_lookup (s : Shell) (argv : List String) : Option (Shell × String × Int × Nat) :=
  match argv with
  | [] => none
  | cmd :: rest =>
    match rest.head? with
    | none => none
    | some pidOrjid =>
      let found : Option Int :=
        if pidOrjid.data.head? = some '%' then
          match getjobjid s.jobs (atoi pidOrjid.data.tail) with
          | none => none
          | some k =>
            match s.jobs[k]? with
            | none => none
            | some job => some job.pid
        else if (pidOrjid.data.head?.map Char.isDigit) = some true then
          match getjobpid s.jobs (atoi pidOrjid.data) with
          | none => none
          | some _ => some (atoi pidOrjid.data)
        else none
      match found with
      | none => none
      | some pid =>
        let s1 : Shell := { s with kills := s.kills ++ [(intNeg pid, SIGCONT)] }
        if cmd = "fg" ∨ cmd = "bg" then
          match getjobpid s1.jobs pid with
          | none => none
          | some i => some (s1, cmd, pid, i)
        else none

/-- The second half of `do_bgfg`: the write through the pointer to slot `i`
that the first half has obtained. For `fg` the state of that slot becomes `FG`
and `waitfg(pid)` is called; for `bg` the slot is printed and its state becomes
`BG`. The slot is the one the pointer refers to, whatever it holds by now. -/
def bgfg_store (s : Shell) (cmd : String) (pid : Int) (i : Nat) : Option (Shell × Option Int) :=
  if cmd = "fg" then some ({ s with jobs := setState s.jobs i FG }, some pid)
  else if cmd = "bg" then
    match s.jobs[i]? with
    | none => none
    | some job =>
      some ({ s with
        out := s.out ++ ["[" ++ fmt_d job.jid ++ "] (" ++ fmt_d job.pid ++ ") " ++ job.cmdline],
        jobs := setState s.jobs i BG }, none)
  else some (s, none)

/-- Where the main flow of the shell stands between two steps: reading the next
command line, polling in `waitfg` for a pid, or inside `do_bgfg` between the
lookup `getjobpid(jobs, pid)` and the write through the pointer to `slot`. -/
inductive Ctl where
  | prompt
  | waitfg (pid : Int)
  | store (cmd : String) (pid : Int) (slot : Nat)
deriving DecidableEq

/-- The shell between two steps: its globals and the place of its main flow. -/
structure Sys where
  sh : Shell
  ctl : Ctl
deriving DecidableEq

/-- What happens in one step of the shell. -/
inductive Event where
  | launch (pid : Int) (bg : Bool) (cmdline : String)
  | bgfg (argv : List String)
  | bgfgLookup (argv : List String)
  | bgfgStore
  | sigchld (events : List (Int × wstatus))
  | sigint (sig : Int)
  | sigtstp (sig : Int)
  | wake

/-- The call `waitfg(pid)` that ends `eval` and the `fg` branch of `do_bgfg`:
polling when the pid is in the job list, back at the prompt otherwise. -/
def enterWaitfg (s : Shell) (w : Option Int) : Ctl :=
  match w with
  | none => Ctl.prompt
  | some pid =>
    match waitfg_enter s.jobs pid with
    | none => Ctl.prompt
    | some p => Ctl.waitfg p

/-- One step of the shell; `none` when the event cannot happen in the state.
At the prompt a command line launches a job (`launch`) or runs `fg`/`bg`,
either with no signal arriving inside `do_bgfg` (`bgfg`) or up to its lookup
`getjobpid(jobs, pid)` (`bgfgLookup`), the write through the pointer following
as a step of its own (`bgfgStore`). `do_bgfg` does not block SIGCHLD, and the
handlers are installed with an empty mask, so a signal handler runs at any
place of the main flow, also between these two steps. The polling of `waitfg`
ends (`wake`) when `fgpid(jobs)` is no longer the pid. The next command line
is read only at the prompt. -/
def shellStep (sys : Sys) : Event → Option Sys
  | Event.launch pid bg cmdline =>
    match sys.ctl with
    | Ctl.prompt =>
      match eval_parent sys.sh pid bg cmdline with
      | none => none
      | some (s1, w) => some ⟨s1, enterWaitfg s1 w⟩
    | _ => none
  | Event.bgfg argv =>
    match sys.ctl with
    | Ctl.prompt =>
      match do_bgfg sys.sh argv with
      | none => none
      | some (s1, w) => some ⟨s1, enterWaitfg s1 w⟩
    | _ => none
  | Event.bgfgLookup argv =>
    match sys.ctl with
    | Ctl.prompt =>
      match bgfg_lookup sys.sh argv with
      | none => none
      | some (s1, cmd, pid, i) => some ⟨s1, Ctl.store cmd pid i⟩
    | _ => none
  | Event.bgfgStore =>
    match sys.ctl with
    | Ctl.store cmd pid i =>
      match bgfg_store sys.sh cmd pid i with
      | none => none
      | some (s1, w) => some ⟨s1, enterWaitfg s1 w⟩
    | _ => none
  | Event.sigchld events =>
    match sigchld_handler sys.sh events with
    | none => none
    | some s1 => some ⟨s1, sys.ctl⟩
  | Event.sigint sig => some ⟨sigint_handler sys.sh sig, sys.ctl⟩
  | Event.sigtstp sig => some ⟨sigtstp_handler sys.sh sig, sys.ctl⟩
  | Event.wake =>
    match sys.ctl with
    | Ctl.waitfg pid => if fgpid sys.sh.jobs ≠ pid then some ⟨sys.sh, Ctl.prompt⟩ else none
    | _ => none

/-- The step relation of the shell. -/
def Step (a b : Sys) : Prop := ∃ e, shellStep a e = some b

/-- The states the shell reaches from the start of its read/eval loop, with
or without the option `-v`. -/
inductive Reachable : Sys → Prop where
  | start (v : Bool) : Reachable ⟨{ shell0 with verbose := v }, Ctl.prompt⟩
  | step (a b : Sys) : Reachable a → Step a b → Reachable b

/-- Run a sequence of events; `none` when one of them cannot happen. -/
def runEvents (sys : Sys) : List Event → Option Sys
  | [] => some sys
  | e :: es =>
    match shellStep sys e with
    | none => none
    | some sys1 => runEvents sys1 es

/-! ## Sequences of `addjob` and `deletejob` calls -/

/-- One call on the job table. -/
inductive JobOp where
  | add (pid state : Int) (cmdline : String)
  | del (pid : Int)
deriving DecidableEq

/-- Run one call, keeping the globals. -/
def applyOp (s : Shell) : JobOp → Option Shell
  | JobOp.add pid state cmdline =>
    match addjob s pid state cmdline with
    | none => none
    | some (_, s1) => some s1
  | JobOp.del pid => some (deletejob s pid).2

/-- Run a sequence of calls, any pids and any states. -/
def runOps (s : Shell) : List JobOp → Option Shell
  | [] => some s
  | op :: ops =>
    match applyOp s op with
    | none => none
    | some s1 => runOps s1 ops

/-- An added pid is at least 1 and not currently in the table. -/
def freshOp (s : Shell) : JobOp → Bool
  | JobOp.add pid _ _ => decide (1 ≤ pid) && s.jobs.all (fun j => j.pid != pid)
  | JobOp.del _ => true

/-- Run a sequence of calls in which every added pid is at least 1 and not
currently in the table; `none` when a call of the sequence is not so. -/
def runFresh (s : Shell) : List JobOp → Option Shell
  | [] => some s
  | op :: ops =>
    if freshOp s op then
      match applyOp s op with
      | none => none
      | some s1 => runFresh s1 ops
    else none

/-- The sequence `addjob(jobs, lo, BG, ..)`, ..., `addjob(jobs, lo + n - 1, BG, ..)`. -/
def addRange (lo : Int) : Nat → List JobOp
  | 0 => []
  | n + 1 => JobOp.add lo BG "sleep 9 &\n" :: addRange (lo + 1) n

/-! ## The tokenizer `parseline` -/

/-- The constant `MAXARGS`: max args on a command line, the size of the array
`argv` that `eval` hands to `parseline`. -/
def MAXARGS : Nat := 128

/-- The loop `while (*buf && (*buf == ' ')) buf++`: `buf` is the rest of the
line it points to. -/
def skipSpaces : List Char → List Char
  | [] => []
  | c :: cs => if c = ' ' then skipSpaces cs else c :: cs

/-- The library call `strchr(buf, c)`. The result is `none` for NULL; for a
pointer `delim` it is the text between `buf` and `delim` (the C string at `buf`
once `*delim = 0` is written) and the text at `delim + 1`. -/
def strchr (c : Char) : List Char → Option (List Char × List Char)
  | [] => none
  | x :: xs =>
    if x = c then some ([], xs)
    else
      match strchr c xs with
      | none => none
      | some (w, r) => some (x :: w, r)

/-- The search for the delimiter of the argument at `buf`: past a single quote
the next single quote, otherwise the next space. -/
def nextDelim (buf : List Char) : Option (List Char × List Char) :=
  match buf with
  | [] => strchr ' ' []
  | c :: cs => if c = '\'' then strchr '\'' cs else strchr ' ' (c :: cs)

/-- The loop `while (delim)` of `parseline`: store the argument in `argv`, end
it at `delim`, skip the spaces behind it and look for the next delimiter.
`none` is a store past the end of `argv`. Every round moves `buf` forward, so
the length of the line is fuel enough; out of fuel the loop would stop. -/
def parseLoop : Nat → Option (List Char × List Char) → List String → Option (List String)
  | _, none, argv => some argv
  | 0, some _, argv => some argv
  | fuel + 1, some (arg, rest), argv =>
    if argv.length < MAXARGS then
      parseLoop fuel (nextDelim (skipSpaces rest)) (argv ++ [String.mk arg])
    else none

/-- The function `parseline`: parse the command line and build the `argv`
array. The result is the return value and the entries of `argv` before its
terminating NULL. `none` is a write outside `array` or `argv`. The last
character of the line, its newline, is one byte. -/
def parseline (cmdline : String) : Option (Int × List String) :=
  match strcpy MAXLINE cmdline with
  | none => none
  | some b =>
    if b.data = [] then none
    else
      let line := b.data.dropLast ++ [' ']
      let buf := skipSpaces line
      match parseLoop line.length (nextDelim buf) [] with
      | none => none
      | some argv =>
        if argv.length < MAXARGS then
          if argv.length = 0 then some (1, argv)
          else
            match argv.getLast? with
            | none => some (1, argv)
            | some last =>
              if last.data.head? = some '&' then some (1, argv.dropLast)
              else some (0, argv)
        else none

/-! ## Specification vocabulary -/

/-- Slot `i` is the first (lowest-index) slot of the table that satisfies `p`. -/
def FirstSlot (p : job_t → Prop) (jobs : List job_t) (i : Nat) : Prop :=
  (∃ j, jobs[i]? = some j ∧ p j) ∧ ∀ k j, k < i → jobs[k]? = some j → ¬ p j

/-- The job record a cleared slot holds. -/
def clearedJob : job_t := { pid := 0, jid := 0, state := UNDEF, cmdline := "" }

/-- Invariant of the job-id bookkeeping: an empty slot carries jid 0, `nextjid`
and the jids are in the range of `int`, and `nextjid` is above every jid in
the table unless a slot holds a jid of `MAXJOBS` or more. -/
def JidInv (s : Shell) : Prop :=
  (∀ j ∈ s.jobs, j.pid = 0 → j.jid = 0) ∧
  (-2147483648 ≤ s.nextjid ∧ s.nextjid < 2147483648) ∧
  (∀ j ∈ s.jobs, j.jid < 2147483648) ∧
  ((∀ j ∈ s.jobs, j.jid < s.nextjid) ∨ ∃ j ∈ s.jobs, 16 ≤ j.jid)

/-- No two non-empty slots of the table hold the same pid. -/
def PidsDistinct (jobs : List job_t) : Prop :=
  ∀ (a b : Nat) (x y : job_t), a ≠ b → jobs[a]? = some x → jobs[b]? = some y →
    x.pid ≠ 0 → x.pid ≠ y.pid

/-- No two non-empty slots of the table hold the same jid. -/
def JidsDistinct (jobs : List job_t) : Prop :=
  ∀ (a b : Nat) (x y : job_t), a ≠ b → jobs[a]? = some x → jobs[b]? = some y →
    x.pid ≠ 0 → y.pid ≠ 0 → x.jid ≠ y.jid

/-- Where the reading of a line stands: between two tokens, inside a word, or
inside a single-quoted span. -/
inductive TokState where
  | between
  | word (acc : List Char)
  | quoted (acc : List Char)

/-- The tokens of a text, read character by character: spaces separate tokens,
a single quote where a token starts opens a span that the next single quote
closes and that is one token (without its quotes), any other character starts
a word that runs to the next space or the end. `none` when a span is not
closed. -/
def tokensFrom : TokState → List Char → Option (List (List Char))
  | TokState.between, [] => some []
  | TokState.between, c :: cs =>
    if c = ' ' then tokensFrom TokState.between cs
    else if c = '\'' then tokensFrom (TokState.quoted []) cs
    else tokensFrom (TokState.word [c]) cs
  | TokState.word acc, [] => some [acc]
  | TokState.word acc, c :: cs =>
    if c = ' ' then (tokensFrom TokState.between cs).map (fun ts => acc :: ts)
    else tokensFrom (TokState.word (acc ++ [c])) cs
  | TokState.quoted _, [] => none
  | TokState.quoted acc, c :: cs =>
    if c = '\'' then (tokensFrom TokState.between cs).map (fun ts => acc :: ts)
    else tokensFrom (TokState.quoted (acc ++ [c])) cs

/-- The tokens of a newline-terminated command line, in order: those of the
line without its newline. -/
def lineTokens (cmdline : String) : Option (List String) :=
  (tokensFrom TokState.between cmdline.data.dropLast).map (fun ts => ts.map String.mk)

/-! ## General lemmas -/

theorem wrapInt_eq_self {x : Int} (h1 : -2147483648 ≤ x) (h2 : x < 2147483648) :
    wrapInt x = x := by
  unfold wrapInt
  omega

theorem wrapInt_range (x : Int) : -2147483648 ≤ wrapInt x ∧ wrapInt x < 2147483648 := by
  unfold wrapInt
  omega

theorem firstIdx_eq_none {p : job_t → Bool} {l : List job_t} :
    firstIdx p l = none ↔ ∀ j ∈ l, p j = false := by
  induction l with
  | nil => simp [firstIdx]
  | cons a l ih =>
    by_cases h : p a = true
    · simp [firstIdx, h]
    · simp [firstIdx, h, ih]

theorem firstIdx_eq_some {p : job_t → Bool} {l : List job_t} {i : Nat}
    (h : firstIdx p l = some i) :
    (∃ j, l[i]? = some j ∧ p j = true) ∧ ∀ k j, k < i → l[k]? = some j → p j = false := by
  induction l generalizing i with
  | nil => simp [firstIdx] at h
  | cons a l ih =>
    by_cases hp : p a = true
    · simp [firstIdx, hp] at h
      subst h
      exact ⟨⟨a, by simp, hp⟩, fun k j hk => absurd hk (Nat.not_lt_zero k)⟩
    · cases hf : firstIdx p l with
      | none => simp [firstIdx, hp, hf] at h
      | some i0 =>
        simp [firstIdx, hp, hf] at h
        subst h
        obtain ⟨⟨j, hj, hpj⟩, hmin⟩ := ih hf
        refine ⟨⟨j, by simpa using hj, hpj⟩, ?_⟩
        intro k jk hk hget
        cases k with
        | zero =>
          simp at hget
          subst hget
          simpa using hp
        | succ k =>
          simp at hget
          exact hmin k jk (by omega) hget

theorem firstIdx_lt {p : job_t → Bool} {l : List job_t} {i : Nat}
    (h : firstIdx p l = some i) : i < l.length := by
  obtain ⟨⟨j, hj, _⟩, _⟩ := firstIdx_eq_some h
  exact (List.getElem?_eq_some_iff.1 hj).1

theorem foldl_max_ge (l : List job_t) (a : Int) :
    a ≤ l.foldl (fun max j => if j.jid > max then j.jid else max) a ∧
    ∀ j ∈ l, j.jid ≤ l.foldl (fun max j => if j.jid > max then j.jid else max) a := by
  induction l generalizing a with
  | nil => simp
  | cons b l ih =>
    simp only [List.foldl_cons, List.mem_cons, forall_eq_or_imp]
    obtain ⟨h1, h2⟩ := ih (if b.jid > a then b.jid else a)
    refine ⟨?_, ?_, h2⟩
    · by_cases hb : b.jid > a
      · simp only [hb, if_true] at h1 ⊢
        omega
      · simp only [hb, if_false] at h1 ⊢
        omega
    · by_cases hb : b.jid > a
      · simp only [hb, if_true] at h1 ⊢
        omega
      · simp only [hb, if_false] at h1 ⊢
        omega

theorem foldl_max_mem (l : List job_t) (a : Int) :
    l.foldl (fun max j => if j.jid > max then j.jid else max) a = a ∨
    ∃ j ∈ l, j.jid = l.foldl (fun max j => if j.jid > max then j.jid else max) a := by
  induction l generalizing a with
  | nil => simp
  | cons b l ih =>
    simp only [List.foldl_cons, List.mem_cons, exists_eq_or_imp]
    rcases ih (if b.jid > a then b.jid else a) with h | ⟨j, hj, hj2⟩
    · by_cases hb : b.jid > a
      · simp only [hb, if_true] at h ⊢
        exact Or.inr (Or.inl h.symm)
      · simp only [hb, if_false] at h ⊢
        exact Or.inl h
    · exact Or.inr (Or.inr ⟨j, hj, hj2⟩)

theorem maxjid_nonneg (l : List job_t) : 0 ≤ maxjid l := (foldl_max_ge l 0).1

theorem maxjid_ge (l : List job_t) : ∀ j ∈ l, j.jid ≤ maxjid l := (foldl_max_ge l 0).2

theorem maxjid_mem (l : List job_t) : maxjid l = 0 ∨ ∃ j ∈ l, j.jid = maxjid l :=
  foldl_max_mem l 0

theorem intAdd_one_eq {x : Int} (h1 : -2147483648 ≤ x) (h2 : x < 2147483647) :
    intAdd x 1 = x + 1 := by
  unfold intAdd
  exact wrapInt_eq_self (by omega) (by omega)

theorem mem_of_getElem?_eq_some {l : List job_t} {i : Nat} {j : job_t}
    (h : l[i]? = some j) : j ∈ l := by
  obtain ⟨hi, hj⟩ := List.getElem?_eq_some_iff.1 h
  exact hj ▸ List.getElem_mem hi

/-! ## C1: the contract of `addjob` -/

/-- C1: on every job table, `nextjid`, pid, state and command line shorter than
`MAXLINE`, `addjob` returns 0 exactly when `pid < 1` or no slot has pid 0, and
then the table and `nextjid` are unchanged; otherwise it returns 1, the first
slot with pid 0 now holds `(pid, state, jid = old nextjid, cmdline)`, every
other slot is unchanged, and `nextjid` becomes the old `nextjid + 1`, or 1 when
that exceeds `MAXJOBS`. The sum is the `int` sum of the code; it is the
mathematical sum whenever the old `nextjid` is an `int` below `INT_MAX`. -/
theorem addjob_contract (s : Shell) (pid state : Int) (cmdline : String)
    (hlen : cmdline.utf8ByteSize < MAXLINE) :
    ∃ r s', addjob s pid state cmdline = some (r, s') ∧
      (r = 0 ↔ (pid < 1 ∨ ∀ j ∈ s.jobs, j.pid ≠ 0)) ∧
      (r = 0 → s'.jobs = s.jobs ∧ s'.nextjid = s.nextjid) ∧
      (r ≠ 0 → r = 1 ∧ ∃ i, FirstSlot (fun j => j.pid = 0) s.jobs i ∧
        s'.jobs.length = s.jobs.length ∧
        s'.jobs[i]? =
          some { pid := pid, jid := s.nextjid, state := state, cmdline := cmdline } ∧
        (∀ k, k ≠ i → s'.jobs[k]? = s.jobs[k]?) ∧
        s'.nextjid = (if intAdd s.nextjid 1 > 16 then 1 else intAdd s.nextjid 1) ∧
        (-2147483648 ≤ s.nextjid → s.nextjid < 2147483647 →
          s'.nextjid = if s.nextjid + 1 > 16 then 1 else s.nextjid + 1)) := by
  unfold addjob
  by_cases hpid : pid < 1
  · simp only [hpid, if_true]
    exact ⟨0, s, rfl, by simp, fun _ => ⟨rfl, rfl⟩, fun h => absurd rfl h⟩
  · simp only [hpid, if_false]
    cases hf : firstIdx (fun j => j.pid == 0) s.jobs with
    | none =>
      refine ⟨0, _, rfl, ?_, fun _ => ⟨rfl, rfl⟩, fun h => absurd rfl h⟩
      have hnone := firstIdx_eq_none.1 hf
      simp only [true_iff]
      right
      intro j hj
      simpa using hnone j hj
    | some i =>
      have hcpy : strcpy MAXLINE cmdline = some cmdline := by simp [strcpy, hlen]
      simp only [hcpy]
      obtain ⟨⟨j, hj, hpj⟩, hmin⟩ := firstIdx_eq_some hf
      have hi : i < s.jobs.length := firstIdx_lt hf
      have hj0 : j.pid = 0 := by simpa using hpj
      refine ⟨1, _, rfl, ?_, fun h => absurd h (by decide), fun _ => ⟨rfl, i, ?_, ?_, ?_, ?_, ?_, ?_⟩⟩
      · constructor
        · intro h
          exact absurd h (by decide)
        · rintro (h | h)
          · exact h.elim
          · exact absurd hj0 (h j (mem_of_getElem?_eq_some hj))
      · refine ⟨⟨j, hj, hj0⟩, ?_⟩
        intro k jk hk hget
        simpa using hmin k jk hk hget
      · simp
      · simp [List.getElem?_set_self hi]
      · intro k hk
        simp [List.getElem?_set_ne (Ne.symm hk)]
      · simp [MAXJOBS]
      · intro h1 h2
        simp [MAXJOBS, intAdd_one_eq h1 h2]

/-- Witness for C1: adding job 5 to the table of a fresh shell. -/
theorem addjob_contract_witness :
    "ls\n".utf8ByteSize < MAXLINE ∧ ∃ r s', addjob shell0 5 FG "ls\n" = some (r, s') ∧
      (r = 0 ↔ ((5 : Int) < 1 ∨ ∀ j ∈ shell0.jobs, j.pid ≠ 0)) :=
  ⟨by decide, by
    obtain ⟨r, s', h, hiff, _⟩ := addjob_contract shell0 5 FG "ls\n" (by decide)
    exact ⟨r, s', h, hiff⟩⟩

/-! ## C2: the contract of `deletejob` -/

/-- C2: on every job table and pid, if `pid >= 1` and some slot holds `pid`,
`deletejob` returns 1, the first such slot is cleared (pid 0, jid 0, state
`UNDEF`, empty command line), every other slot is unchanged and `nextjid`
becomes one more than `m`, the largest jid among the slots of the resulting
table (the `int` sum of the code, the mathematical one when `m < INT_MAX`), which
is 1 when no slot is left with a positive jid, as when every slot is cleared;
otherwise it returns 0 and the table and `nextjid` are unchanged. -/
theorem deletejob_contract (s : Shell) (pid : Int) :
    ∃ r s', deletejob s pid = (r, s') ∧
      ((1 ≤ pid ∧ ∃ j ∈ s.jobs, j.pid = pid) →
        r = 1 ∧ ∃ i, FirstSlot (fun j => j.pid = pid) s.jobs i ∧
          s'.jobs.length = s.jobs.length ∧
          s'.jobs[i]? = some clearedJob ∧
          (∀ k, k ≠ i → s'.jobs[k]? = s.jobs[k]?) ∧
          ∃ m, (∀ j ∈ s'.jobs, j.jid ≤ m) ∧ (∃ j ∈ s'.jobs, j.jid = m) ∧
            s'.nextjid = intAdd m 1 ∧
            (m < 2147483647 → s'.nextjid = m + 1) ∧
            ((∀ j ∈ s'.jobs, j.jid ≤ 0) → s'.nextjid = 1)) ∧
      (¬ (1 ≤ pid ∧ ∃ j ∈ s.jobs, j.pid = pid) →
        r = 0 ∧ s'.jobs = s.jobs ∧ s'.nextjid = s.nextjid) := by
  unfold deletejob
  by_cases hpid : pid < 1
  · simp only [hpid, if_true]
    refine ⟨0, s, rfl, ?_, fun _ => ⟨rfl, rfl, rfl⟩⟩
    rintro ⟨h, _⟩
    omega
  · simp only [hpid, if_false]
    cases hf : firstIdx (fun j => j.pid == pid) s.jobs with
    | none =>
      refine ⟨0, s, rfl, ?_, fun _ => ⟨rfl, rfl, rfl⟩⟩
      rintro ⟨_, j, hj, hjp⟩
      have := firstIdx_eq_none.1 hf j hj
      simp [hjp] at this
    | some i =>
      obtain ⟨⟨j, hj, hpj⟩, hmin⟩ := firstIdx_eq_some hf
      have hjp : j.pid = pid := by simpa using hpj
      have hclr : (List.modify clearjob i s.jobs)[i]? = some clearedJob := by
        simp [hj, clearjob, clearedJob]
      have hmem : clearedJob ∈ List.modify clearjob i s.jobs := mem_of_getElem?_eq_some hclr
      have hm0 := maxjid_nonneg (List.modify clearjob i s.jobs)
      have hmach : ∃ j ∈ List.modify clearjob i s.jobs,
          j.jid = maxjid (List.modify clearjob i s.jobs) := by
        rcases maxjid_mem (List.modify clearjob i s.jobs) with h | h
        · exact ⟨clearedJob, hmem, by rw [h]; rfl⟩
        · exact h
      refine ⟨1, _, rfl, ?_, ?_⟩
      · intro _
        refine ⟨rfl, i, ⟨⟨j, hj, hjp⟩, ?_⟩, by simp, hclr, ?_,
          maxjid (List.modify clearjob i s.jobs), maxjid_ge _, hmach, rfl, ?_, ?_⟩
        · intro k jk hk hget
          simpa using hmin k jk hk hget
        · intro k hk
          simp [List.getElem?_modify_ne clearjob s.jobs (Ne.symm hk)]
        · intro hlt
          exact intAdd_one_eq (by omega) hlt
        · intro hall
          obtain ⟨jm, hjm, hjmeq⟩ := hmach
          have := hall jm hjm
          have h0 : maxjid (List.modify clearjob i s.jobs) = 0 := by omega
          show intAdd (maxjid (List.modify clearjob i s.jobs)) 1 = 1
          rw [h0]
          decide
      · intro hneg
        exact absurd ⟨by omega, j, mem_of_getElem?_eq_some hj, hjp⟩ hneg

/-- Witness for C2: deleting job 5 from a table that holds only job 5. -/
theorem deletejob_contract_witness :
    ∃ r s', deletejob { shell0 with jobs := [⟨5, 1, BG, "ls\n"⟩], nextjid := 2 } 5 = (r, s') ∧
      r = 1 ∧ s'.nextjid = 1 := by
  obtain ⟨r, s', h, h1, _⟩ :=
    deletejob_contract { shell0 with jobs := [⟨5, 1, BG, "ls\n"⟩], nextjid := 2 } 5
  obtain ⟨hr, i, _, _, _, _, m, _, _, _, _, hempty⟩ := h1 ⟨by decide, ⟨5, 1, BG, "ls\n"⟩, by simp, rfl⟩
  refine ⟨r, s', h, hr, hempty ?_⟩
  have hs : s' = (deletejob { shell0 with jobs := [⟨5, 1, BG, "ls\n"⟩], nextjid := 2 } 5).2 := by
    rw [h]
  rw [hs]
  decide

/-! ## Case analysis of `addjob` and `deletejob` -/

theorem modify_eq_set_of_getElem? {f : job_t → job_t} {l : List job_t} {i : Nat} {j : job_t}
    (h : l[i]? = some j) : l.modify f i = l.set i (f j) := by
  rw [List.modify_eq_set, h]
  rfl

theorem addjob_cases {s s' : Shell} {pid state r : Int} {cmdline : String}
    (h : addjob s pid state cmdline = some (r, s')) :
    (r = 0 ∧ s'.jobs = s.jobs ∧ s'.nextjid = s.nextjid) ∨
    (r = 1 ∧ 1 ≤ pid ∧ ∃ i j0, FirstSlot (fun j => j.pid = 0) s.jobs i ∧
      s.jobs[i]? = some j0 ∧ j0.pid = 0 ∧
      s'.jobs = s.jobs.set i { pid := pid, jid := s.nextjid, state := state, cmdline := cmdline } ∧
      s'.nextjid = (if intAdd s.nextjid 1 > 16 then 1 else intAdd s.nextjid 1)) := by
  unfold addjob at h
  by_cases hpid : pid < 1
  · simp only [hpid, if_true, Option.some.injEq, Prod.mk.injEq] at h
    obtain ⟨rfl, rfl⟩ := h
    exact Or.inl ⟨rfl, rfl, rfl⟩
  · simp only [hpid, if_false] at h
    cases hf : firstIdx (fun j => j.pid == 0) s.jobs with
    | none =>
      simp only [hf, Option.some.injEq, Prod.mk.injEq] at h
      obtain ⟨rfl, rfl⟩ := h
      exact Or.inl ⟨rfl, rfl, rfl⟩
    | some i =>
      simp only [hf] at h
      by_cases hlen : cmdline.utf8ByteSize < MAXLINE
      · simp only [strcpy, hlen, if_true, Option.some.injEq, Prod.mk.injEq] at h
        obtain ⟨rfl, rfl⟩ := h
        obtain ⟨⟨j, hj, hpj⟩, hmin⟩ := firstIdx_eq_some hf
        have hj0 : j.pid = 0 := by simpa using hpj
        refine Or.inr ⟨rfl, by omega, i, j, ⟨⟨j, hj, hj0⟩, ?_⟩, hj, hj0, rfl, by simp [MAXJOBS]⟩
        intro k jk hk hget
        simpa using hmin k jk hk hget
      · simp [strcpy, hlen] at h

theorem deletejob_cases (s : Shell) (pid : Int) :
    deletejob s pid = (0, s) ∨
    (1 ≤ pid ∧ ∃ i j0, FirstSlot (fun j => j.pid = pid) s.jobs i ∧
      s.jobs[i]? = some j0 ∧ j0.pid = pid ∧
      deletejob s pid = (1, { s with
        jobs := s.jobs.set i clearedJob,
        nextjid := intAdd (maxjid (s.jobs.set i clearedJob)) 1 })) := by
  unfold deletejob
  by_cases hpid : pid < 1
  · simp [hpid]
  · simp only [hpid, if_false]
    cases hf : firstIdx (fun j => j.pid == pid) s.jobs with
    | none => simp
    | some i =>
      obtain ⟨⟨j, hj, hpj⟩, hmin⟩ := firstIdx_eq_some hf
      have hjp : j.pid = pid := by simpa using hpj
      refine Or.inr ⟨by omega, i, j, ⟨⟨j, hj, hjp⟩, ?_⟩, hj, hjp, ?_⟩
      · intro k jk hk hget
        simpa using hmin k jk hk hget
      · simp only [modify_eq_set_of_getElem? hj]
        rfl

theorem mem_set_of_getElem?_ne {l : List job_t} {i k : Nat} {x j : job_t}
    (hk : l[k]? = some j) (hne : i ≠ k) : j ∈ l.set i x := by
  apply mem_of_getElem?_eq_some (i := k)
  rw [List.getElem?_set_ne hne]
  exact hk

/-! ## The job-id invariant -/

theorem mem_jobs0 {j : job_t} (hj : j ∈ jobs0) : j = clearedJob := by
  simp [jobs0, initjobs, clearjob] at hj
  exact hj.2

theorem JidInv_shell0 (v : Bool) : JidInv { shell0 with verbose := v } := by
  have h1 : (1 : Int) < 2147483648 := by decide
  have h2 : (-2147483648 : Int) ≤ 1 := by decide
  refine ⟨?_, ⟨h2, h1⟩, ?_, Or.inl ?_⟩
  · intro j hj _
    rw [mem_jobs0 hj]
    rfl
  · intro j hj
    rw [mem_jobs0 hj]
    decide
  · intro j hj
    rw [mem_jobs0 hj]
    show (0 : Int) < 1
    decide

theorem JidInv_addjob {s s' : Shell} {pid state r : Int} {cmdline : String}
    (hinv : JidInv s) (h : addjob s pid state cmdline = some (r, s')) : JidInv s' := by
  obtain ⟨w1, w2, w3, w4⟩ := hinv
  rcases addjob_cases h with ⟨_, hj, hn⟩ | ⟨_, hpid, i, j0, _, hget, hj0, hj, hn⟩
  · unfold JidInv
    rw [hj, hn]
    exact ⟨w1, w2, w3, w4⟩
  · have hi : i < s.jobs.length := (List.getElem?_eq_some_iff.1 hget).1
    have hnew : (⟨pid, s.nextjid, state, cmdline⟩ : job_t) ∈ s'.jobs := by
      rw [hj]
      exact List.mem_set _ _ hi _
    have hmem : ∀ a ∈ s'.jobs, a ∈ s.jobs ∨ a = ⟨pid, s.nextjid, state, cmdline⟩ := by
      intro a ha
      rw [hj] at ha
      exact List.mem_or_eq_of_mem_set ha
    have hr := wrapInt_range (s.nextjid + 1)
    refine ⟨?_, ?_, ?_, ?_⟩
    · intro a ha hp
      rcases hmem a ha with h1 | h1
      · exact w1 a h1 hp
      · subst h1
        simp at hp
        omega
    · rw [hn]
      unfold intAdd
      split <;> omega
    · intro a ha
      rcases hmem a ha with h1 | h1
      · exact w3 a h1
      · subst h1
        exact w2.2
    · by_cases hbig : 16 ≤ s.nextjid
      · exact Or.inr ⟨_, hnew, hbig⟩
      · have hadd : intAdd s.nextjid 1 = s.nextjid + 1 := intAdd_one_eq w2.1 (by omega)
        rw [hn, hadd]
        have hle : ¬ (s.nextjid + 1 > 16) := by omega
        simp only [hle, if_false]
        rcases w4 with hall | ⟨j, hjm, hj16⟩
        · left
          intro a ha
          rcases hmem a ha with h1 | h1
          · have := hall a h1
            omega
          · subst h1
            show s.nextjid < s.nextjid + 1
            omega
        · right
          obtain ⟨k, hk⟩ := List.getElem?_of_mem hjm
          have hne : i ≠ k := by
            rintro rfl
            rw [hget] at hk
            cases hk
            have := w1 j0 hjm hj0
            omega
          exact ⟨j, by rw [hj]; exact mem_set_of_getElem?_ne hk hne, hj16⟩

theorem JidInv_deletejob {s : Shell} (pid : Int) (hinv : JidInv s) :
    JidInv (deletejob s pid).2 := by
  obtain ⟨w1, w2, w3, w4⟩ := hinv
  rcases deletejob_cases s pid with h | ⟨_, i, j0, _, hget, _, h⟩
  · rw [h]
    exact ⟨w1, w2, w3, w4⟩
  · rw [h]
    have hmem : ∀ a ∈ s.jobs.set i clearedJob, a ∈ s.jobs ∨ a = clearedJob :=
      fun a ha => List.mem_or_eq_of_mem_set ha
    have hw3 : ∀ a ∈ s.jobs.set i clearedJob, a.jid < 2147483648 := by
      intro a ha
      rcases hmem a ha with h1 | h1
      · exact w3 a h1
      · subst h1
        decide
    have hr := wrapInt_range (maxjid (s.jobs.set i clearedJob) + 1)
    refine ⟨?_, hr, hw3, ?_⟩
    · intro a ha hp
      rcases hmem a ha with h1 | h1
      · exact w1 a h1 hp
      · subst h1
        rfl
    · have h0 := maxjid_nonneg (s.jobs.set i clearedJob)
      have hge := maxjid_ge (s.jobs.set i clearedJob)
      by_cases hbig : 16 ≤ maxjid (s.jobs.set i clearedJob)
      · rcases maxjid_mem (s.jobs.set i clearedJob) with hz | ⟨j, hjm, hjeq⟩
        · omega
        · exact Or.inr ⟨j, hjm, by omega⟩
      · left
        intro a ha
        have := hge a ha
        show a.jid < intAdd (maxjid (s.jobs.set i clearedJob)) 1
        rw [intAdd_one_eq (by omega) (by omega)]
        omega

theorem JidInv_applyOp {s s' : Shell} {op : JobOp} (hinv : JidInv s)
    (h : applyOp s op = some s') : JidInv s' := by
  cases op with
  | add pid state cmdline =>
    unfold applyOp at h
    cases ha : addjob s pid state cmdline with
    | none => simp [ha] at h
    | some rs =>
      obtain ⟨r, s1⟩ := rs
      simp only [ha, Option.some.injEq] at h
      subst h
      exact JidInv_addjob hinv ha
  | del pid =>
    simp only [applyOp, Option.some.injEq] at h
    subst h
    exact JidInv_deletejob pid hinv

theorem JidInv_runOps {ops : List JobOp} {s s' : Shell} (hinv : JidInv s)
    (h : runOps s ops = some s') : JidInv s' := by
  induction ops generalizing s with
  | nil =>
    simp only [runOps, Option.some.injEq] at h
    subst h
    exact hinv
  | cons op ops ih =>
    unfold runOps at h
    cases ha : applyOp s op with
    | none => simp [ha] at h
    | some s1 =>
      simp only [ha] at h
      exact ih (JidInv_applyOp hinv ha) h

theorem runOps_of_runFresh {ops : List JobOp} {s s' : Shell}
    (h : runFresh s ops = some s') : runOps s ops = some s' := by
  induction ops generalizing s with
  | nil => simpa [runFresh, runOps] using h
  | cons op ops ih =>
    unfold runFresh at h
    unfold runOps
    by_cases hf : freshOp s op = true
    · simp only [hf, if_true] at h
      cases ha : applyOp s op with
      | none => simp [ha] at h
      | some s1 =>
        simp only [ha] at h ⊢
        exact ih h
    · simp [hf] at h

theorem getElem?_set_some {l : List job_t} {i a : Nat} {x v : job_t}
    (h : (l.set i v)[a]? = some x) : (a = i ∧ x = v) ∨ (a ≠ i ∧ l[a]? = some x) := by
  rw [List.getElem?_set] at h
  by_cases hia : i = a
  · subst hia
    simp only [if_true] at h
    by_cases hlt : i < l.length
    · simp only [hlt, if_true, Option.some.injEq] at h
      exact Or.inl ⟨rfl, h.symm⟩
    · simp [hlt] at h
  · simp only [hia, if_false] at h
    exact Or.inr ⟨fun h1 => hia h1.symm, h⟩

/-! ## Distinct pids -/

theorem PidsDistinct_jobs0 : PidsDistinct jobs0 := by
  intro a b x y _ ha _ hx
  rw [mem_jobs0 (mem_of_getElem?_eq_some ha)] at hx
  exact absurd rfl hx

theorem PidsDistinct_addjob {s s' : Shell} {pid state r : Int} {cmdline : String}
    (hinv : PidsDistinct s.jobs) (hfresh : ∀ j ∈ s.jobs, j.pid ≠ pid)
    (h : addjob s pid state cmdline = some (r, s')) : PidsDistinct s'.jobs := by
  rcases addjob_cases h with ⟨_, hj, _⟩ | ⟨_, _, i, j0, _, _, _, hj, _⟩
  · rw [hj]
    exact hinv
  · rw [hj]
    intro a b x y hab ha hb hx
    rcases getElem?_set_some ha with ⟨hai, hxv⟩ | ⟨hai, hxa⟩
    · rcases getElem?_set_some hb with ⟨hbi, _⟩ | ⟨_, hyb⟩
      · omega
      · subst hxv
        exact fun heq => hfresh y (mem_of_getElem?_eq_some hyb) heq.symm
    · rcases getElem?_set_some hb with ⟨_, hyv⟩ | ⟨_, hyb⟩
      · subst hyv
        exact hfresh x (mem_of_getElem?_eq_some hxa)
      · exact hinv a b x y hab hxa hyb hx

theorem PidsDistinct_deletejob {s : Shell} (pid : Int) (hinv : PidsDistinct s.jobs) :
    PidsDistinct (deletejob s pid).2.jobs := by
  rcases deletejob_cases s pid with h | ⟨_, i, j0, _, _, _, h⟩
  · rw [h]
    exact hinv
  · rw [h]
    intro a b x y hab ha hb hx
    rcases getElem?_set_some ha with ⟨_, hxv⟩ | ⟨_, hxa⟩
    · subst hxv
      exact absurd rfl hx
    · rcases getElem?_set_some hb with ⟨_, hyv⟩ | ⟨_, hyb⟩
      · subst hyv
        exact hx
      · exact hinv a b x y hab hxa hyb hx

theorem PidsDistinct_runFresh {ops : List JobOp} {s s' : Shell} (hinv : PidsDistinct s.jobs)
    (h : runFresh s ops = some s') : PidsDistinct s'.jobs := by
  induction ops generalizing s with
  | nil =>
    simp only [runFresh, Option.some.injEq] at h
    subst h
    exact hinv
  | cons op ops ih =>
    unfold runFresh at h
    by_cases hf : freshOp s op = true
    · simp only [hf, if_true] at h
      cases ha : applyOp s op with
      | none => simp [ha] at h
      | some s1 =>
        simp only [ha] at h
        refine ih ?_ h
        cases op with
        | add pid state cmdline =>
          unfold applyOp at ha
          cases hadd : addjob s pid state cmdline with
          | none => simp [hadd] at ha
          | some rs =>
            obtain ⟨r, s2⟩ := rs
            simp only [hadd, Option.some.injEq] at ha
            subst ha
            refine PidsDistinct_addjob hinv ?_ hadd
            intro j hj
            simp only [freshOp, Bool.and_eq_true, List.all_eq_true] at hf
            simpa using hf.2 j hj
        | del pid =>
          simp only [applyOp, Option.some.injEq] at ha
          subst ha
          exact PidsDistinct_deletejob pid hinv
    · simp [hf] at h

set_option maxRecDepth 100000

/-! ## C3: the job id of a new job against the live job ids -/

/-- C3 as stated fails: after sixteen jobs, the removal of two of them and one
more job (jid 17, which takes `nextjid` back to 1), `addjob` succeeds for the
fresh pid 18 and gives it jid 1, while the job with pid 4 and jid 4 is live. -/
theorem addjob_jid_below_live_jid :
    ∃ s s' j jn,
      runFresh shell0
        (addRange 1 16 ++ [JobOp.del 2, JobOp.del 3, JobOp.add 17 BG "sleep 9 &\n"]) = some s ∧
      freshOp s (JobOp.add 18 BG "sleep 9 &\n") = true ∧
      addjob s 18 BG "sleep 9 &\n" = some (1, s') ∧
      j ∈ s.jobs ∧ j.pid ≠ 0 ∧
      FirstSlot (fun x => x.pid = 0) s.jobs 2 ∧ s'.jobs[2]? = some jn ∧ jn.pid = 18 ∧
      ¬ j.jid < jn.jid :=
  ⟨(runFresh shell0
      (addRange 1 16 ++ [JobOp.del 2, JobOp.del 3, JobOp.add 17 BG "sleep 9 &\n"])).getD shell0,
   ((addjob ((runFresh shell0
      (addRange 1 16 ++ [JobOp.del 2, JobOp.del 3, JobOp.add 17 BG "sleep 9 &\n"])).getD shell0)
      18 BG "sleep 9 &\n").getD (0, shell0)).2,
   ⟨4, 4, BG, "sleep 9 &\n"⟩, ⟨18, 1, BG, "sleep 9 &\n"⟩,
   by decide, by decide, by decide, by decide, by decide,
   ⟨⟨clearedJob, by decide, rfl⟩, by
      intro k j hk hget
      have hk2 : k = 0 ∨ k = 1 := by omega
      rcases hk2 with rfl | rfl
      · have : j = ⟨1, 1, BG, "sleep 9 &\n"⟩ := by
          have h0 : ((runFresh shell0 (addRange 1 16 ++ [JobOp.del 2, JobOp.del 3,
            JobOp.add 17 BG "sleep 9 &\n"])).getD shell0).jobs[0]? =
              some ⟨1, 1, BG, "sleep 9 &\n"⟩ := by decide
          rw [h0] at hget
          exact (Option.some.inj hget).symm
        subst this
        decide
      · have : j = ⟨17, 17, BG, "sleep 9 &\n"⟩ := by
          have h0 : ((runFresh shell0 (addRange 1 16 ++ [JobOp.del 2, JobOp.del 3,
            JobOp.add 17 BG "sleep 9 &\n"])).getD shell0).jobs[1]? =
              some ⟨17, 17, BG, "sleep 9 &\n"⟩ := by decide
          rw [h0] at hget
          exact (Option.some.inj hget).symm
        subst this
        decide⟩,
   by decide, rfl, by decide⟩

/-- C3, amended: in every state reached from `initjobs` with `nextjid = 1` by a
sequence of `addjob` and `deletejob` calls (each added pid at least 1 and not
in the table), an `addjob` call that succeeds while every live job has a job id
below `MAXJOBS` (16) puts the new job, with jid the old `nextjid`, into the first
empty slot, and that jid is strictly greater than the jid of every live job. -/
theorem addjob_jid_above_live_jids (v : Bool) (ops : List JobOp) (s s' : Shell)
    (pid state : Int) (cmdline : String)
    (hreach : runFresh { shell0 with verbose := v } ops = some s)
    (hadd : addjob s pid state cmdline = some (1, s'))
    (hsmall : ∀ j ∈ s.jobs, j.pid ≠ 0 → j.jid < 16) :
    ∃ i, FirstSlot (fun j => j.pid = 0) s.jobs i ∧
      s'.jobs[i]? = some { pid := pid, jid := s.nextjid, state := state, cmdline := cmdline } ∧
      ∀ j ∈ s.jobs, j.pid ≠ 0 → j.jid < s.nextjid := by
  obtain ⟨w1, _, _, w4⟩ := JidInv_runOps (JidInv_shell0 v) (runOps_of_runFresh hreach)
  rcases addjob_cases hadd with ⟨h0, _⟩ | ⟨_, _, i, j0, hfirst, hget, _, hj, _⟩
  · exact absurd h0 (by decide)
  · refine ⟨i, hfirst, ?_, ?_⟩
    · rw [hj]
      exact List.getElem?_set_self (List.getElem?_eq_some_iff.1 hget).1
    · intro j hjm hjp
      rcases w4 with hall | ⟨j1, hj1, hj16⟩
      · exact hall j hjm
      · have hp : j1.pid ≠ 0 := by
          intro hz
          have := w1 j1 hj1 hz
          omega
        have := hsmall j1 hj1 hp
        omega

/-- Witness for C3, amended: a second job added after a first one. -/
theorem addjob_jid_above_live_jids_witness :
    ∃ i, FirstSlot (fun j => j.pid = 0)
        ((runFresh shell0 [JobOp.add 1 BG "sleep 9 &\n"]).getD shell0).jobs i ∧
      ((addjob ((runFresh shell0 [JobOp.add 1 BG "sleep 9 &\n"]).getD shell0)
        2 FG "ls\n").getD (0, shell0)).2.jobs[i]? =
        some { pid := 2,
               jid := ((runFresh shell0 [JobOp.add 1 BG "sleep 9 &\n"]).getD shell0).nextjid,
               state := FG, cmdline := "ls\n" } ∧
      ∀ j ∈ ((runFresh shell0 [JobOp.add 1 BG "sleep 9 &\n"]).getD shell0).jobs,
        j.pid ≠ 0 → j.jid < ((runFresh shell0 [JobOp.add 1 BG "sleep 9 &\n"]).getD shell0).nextjid :=
  addjob_jid_above_live_jids false [JobOp.add 1 BG "sleep 9 &\n"]
    ((runFresh shell0 [JobOp.add 1 BG "sleep 9 &\n"]).getD shell0)
    ((addjob ((runFresh shell0 [JobOp.add 1 BG "sleep 9 &\n"]).getD shell0)
      2 FG "ls\n").getD (0, shell0)).2
    2 FG "ls\n" (by decide) (by decide) (by decide)

/-! ## C4: a job id held by two live jobs -/

/-- C4 fails on the code: after sixteen jobs, the removal of the jobs with pid 2
and 3, and two more jobs with the fresh pids 17 and 18, slot 0 (pid 1) and slot 2
(pid 18) are both live and both hold jid 1. -/
theorem duplicate_jid_reachable :
    ∃ s, runFresh shell0 (addRange 1 16 ++ [JobOp.del 2, JobOp.del 3,
        JobOp.add 17 BG "sleep 9 &\n", JobOp.add 18 BG "sleep 9 &\n"]) = some s ∧
      s.jobs[0]? = some ⟨1, 1, BG, "sleep 9 &\n"⟩ ∧
      s.jobs[2]? = some ⟨18, 1, BG, "sleep 9 &\n"⟩ ∧
      ¬ JidsDistinct s.jobs :=
  ⟨(runFresh shell0 (addRange 1 16 ++ [JobOp.del 2, JobOp.del 3,
      JobOp.add 17 BG "sleep 9 &\n", JobOp.add 18 BG "sleep 9 &\n"])).getD shell0,
   by decide, by decide, by decide,
   fun h => h 0 2 ⟨1, 1, BG, "sleep 9 &\n"⟩ ⟨18, 1, BG, "sleep 9 &\n"⟩
     (by decide) (by decide) (by decide) (by decide) (by decide) rfl⟩

/-! ## C5: distinct pids -/

/-- C5 as stated fails: `addjob` called twice with pid 5 leaves two non-empty
slots with pid 5. -/
theorem addjob_twice_same_pid :
    ∃ s, runOps shell0 [JobOp.add 5 BG "sleep 9 &\n", JobOp.add 5 FG "ls\n"] = some s ∧
      s.jobs[0]? = some ⟨5, 1, BG, "sleep 9 &\n"⟩ ∧
      s.jobs[1]? = some ⟨5, 2, FG, "ls\n"⟩ ∧
      ¬ PidsDistinct s.jobs :=
  ⟨(runOps shell0 [JobOp.add 5 BG "sleep 9 &\n", JobOp.add 5 FG "ls\n"]).getD shell0,
   by decide, by decide, by decide,
   fun h => h 0 1 ⟨5, 1, BG, "sleep 9 &\n"⟩ ⟨5, 2, FG, "ls\n"⟩
     (by decide) (by decide) (by decide) (by decide) rfl⟩

/-- C5, amended: for every sequence of `addjob` and `deletejob` calls (any
states) in which every added pid is at least 1 and not currently in the table,
applied to the table produced by `initjobs`, the resulting job table never
holds two non-empty slots with the same pid. -/
theorem pids_distinct_of_fresh_adds (v : Bool) (ops : List JobOp) (s : Shell)
    (hreach : runFresh { shell0 with verbose := v } ops = some s) :
    PidsDistinct s.jobs :=
  PidsDistinct_runFresh PidsDistinct_jobs0 hreach

/-- Witness for C5, amended: two jobs added, the first one removed, a third added. -/
theorem pids_distinct_of_fresh_adds_witness :
    PidsDistinct ((runFresh shell0 [JobOp.add 5 BG "sleep 9 &\n", JobOp.add 6 FG "ls\n",
      JobOp.del 5, JobOp.add 7 BG "sleep 9 &\n"]).getD shell0).jobs :=
  pids_distinct_of_fresh_adds false [JobOp.add 5 BG "sleep 9 &\n", JobOp.add 6 FG "ls\n",
      JobOp.del 5, JobOp.add 7 BG "sleep 9 &\n"] _ (by decide)

/-! ## C6: at most one foreground job -/

theorem bgfg_resume_eq_store {s : Shell} {cmd : String} {pid : Int} {i : Nat}
    (hcmd : cmd = "fg" ∨ cmd = "bg") (hg : getjobpid s.jobs pid = some i) :
    bgfg_resume s cmd pid =
      bgfg_store { s with kills := s.kills ++ [(intNeg pid, SIGCONT)] } cmd pid i := by
  unfold bgfg_resume bgfg_store
  by_cases hfg : cmd = "fg"
  · simp only [hfg, if_true, hg]
  · have hbg : cmd = "bg" := hcmd.resolve_left hfg
    have hne : ¬ ("bg" : String) = "fg" := by decide
    simp only [hbg, hne, if_false, if_true, hg]

/-- Run with no signal in between, the two halves of `do_bgfg` are `do_bgfg`. -/
theorem do_bgfg_eq_lookup_store {s s1 : Shell} {argv : List String} {cmd : String}
    {pid : Int} {i : Nat} (h : bgfg_lookup s argv = some (s1, cmd, pid, i)) :
    do_bgfg s argv = bgfg_store s1 cmd pid i := by
  unfold bgfg_lookup at h
  unfold do_bgfg
  cases argv with
  | nil => simp at h
  | cons c rest =>
    simp only at h ⊢
    cases hh : rest.head? with
    | none => simp [hh] at h
    | some arg =>
      simp only [hh] at h ⊢
      by_cases hpc : arg.data.head? = some '%'
      · simp only [hpc, if_true] at h ⊢
        cases hg : getjobjid s.jobs (atoi arg.data.tail) with
        | none => simp [hg] at h
        | some k =>
          simp only [hg] at h ⊢
          cases hk : s.jobs[k]? with
          | none => simp [hk] at h
          | some job =>
            simp only [hk] at h ⊢
            by_cases hcmd : c = "fg" ∨ c = "bg"
            · simp only [hcmd, if_true] at h
              cases hp : getjobpid s.jobs job.pid with
              | none => simp [hp] at h
              | some i0 =>
                simp only [hp, Option.some.injEq, Prod.mk.injEq] at h
                obtain ⟨rfl, rfl, rfl, rfl⟩ := h
                exact bgfg_resume_eq_store hcmd hp
            · simp [hcmd] at h
      · simp only [hpc, if_false] at h ⊢
        by_cases hdg : (arg.data.head?.map Char.isDigit) = some true
        · simp only [hdg, if_true] at h ⊢
          cases hg : getjobpid s.jobs (atoi arg.data) with
          | none => simp [hg] at h
          | some k =>
            simp only [hg] at h ⊢
            by_cases hcmd : c = "fg" ∨ c = "bg"
            · simp only [hcmd, if_true, hg, Option.some.injEq, Prod.mk.injEq] at h
              obtain ⟨rfl, rfl, rfl, rfl⟩ := h
              exact bgfg_resume_eq_store hcmd hg
            · simp [hcmd] at h
        · simp [hdg] at h

theorem Reachable_runEvents {es : List Event} {a b : Sys} (ha : Reachable a)
    (h : runEvents a es = some b) : Reachable b := by
  induction es generalizing a with
  | nil =>
    simp only [runEvents, Option.some.injEq] at h
    subst h
    exact ha
  | cons e es ih =>
    unfold runEvents at h
    cases hs : shellStep a e with
    | none => simp [hs] at h
    | some a1 =>
      simp only [hs] at h
      exact ih (Reachable.step a a1 ha ⟨e, hs⟩) h

/-- C6 fails on the code. Three background jobs 1, 2, 3 are launched. `fg %1`:
`do_bgfg` sends SIGCONT and evaluates `getjobpid(jobs, 1)`, a pointer to slot 0;
child 1 exits, and `sigchld_handler` clears slot 0 before the write
`->state = FG` goes through the pointer, so that the empty slot 0 is left in
state `FG` and `waitfg(1)` returns at once. `fg %2` puts job 2 in state `FG`,
but `fgpid(jobs)` is the pid 0 of slot 0, so `waitfg(2)` returns and the next
command line is read. `fg %3` puts job 3 in state `FG`: the jobs 2 and 3 are
both live and both in state `FG`, and three slots have state `FG`. -/
theorem two_foreground_jobs_reachable :
    ∃ sys, runEvents ⟨shell0, Ctl.prompt⟩
        [Event.launch 1 true "sleep 9 &\n", Event.launch 2 true "sleep 9 &\n",
         Event.launch 3 true "sleep 9 &\n",
         Event.bgfgLookup ["fg", "%1"], Event.sigchld [(1, wstatus.exited 0)], Event.bgfgStore,
         Event.bgfg ["fg", "%2"], Event.wake,
         Event.bgfg ["fg", "%3"], Event.wake] = some sys ∧
      Reachable sys ∧ sys.ctl = Ctl.prompt ∧
      sys.sh.jobs[0]? = some ⟨0, 0, FG, ""⟩ ∧
      sys.sh.jobs[1]? = some ⟨2, 2, FG, "sleep 9 &\n"⟩ ∧
      sys.sh.jobs[2]? = some ⟨3, 3, FG, "sleep 9 &\n"⟩ ∧
      ¬ (sys.sh.jobs.filter (fun j => j.state == FG)).length ≤ 1 :=
  ⟨(runEvents ⟨shell0, Ctl.prompt⟩
        [Event.launch 1 true "sleep 9 &\n", Event.launch 2 true "sleep 9 &\n",
         Event.launch 3 true "sleep 9 &\n",
         Event.bgfgLookup ["fg", "%1"], Event.sigchld [(1, wstatus.exited 0)], Event.bgfgStore,
         Event.bgfg ["fg", "%2"], Event.wake,
         Event.bgfg ["fg", "%3"], Event.wake]).getD ⟨shell0, Ctl.prompt⟩,
   by decide,
   Reachable_runEvents (Reachable.start false)
     (by decide : runEvents ⟨{ shell0 with verbose := false }, Ctl.prompt⟩
        [Event.launch 1 true "sleep 9 &\n", Event.launch 2 true "sleep 9 &\n",
         Event.launch 3 true "sleep 9 &\n",
         Event.bgfgLookup ["fg", "%1"], Event.sigchld [(1, wstatus.exited 0)], Event.bgfgStore,
         Event.bgfg ["fg", "%2"], Event.wake,
         Event.bgfg ["fg", "%3"], Event.wake] = some _),
   by decide, by decide, by decide, by decide, by decide⟩

/-! ## C7: the transitions of `sigchld_handler` -/

/-- C8 fails on the code: with sixteen jobs in the table `addjob` returns 0 for
the child 17 and leaves it untracked; when that child is reported stopped,
`sigchld_handler` writes through the null pointer `getjobpid` returns. -/
theorem sigchld_handler_stop_untracked :
    ∃ s s', runFresh shell0 (addRange 1 16) = some s ∧
      addjob s 17 BG "sleep 9 &\n" = some (0, s') ∧
      getjobpid s'.jobs 17 = none ∧
      sigchld_handler s' [(17, wstatus.stopped 20)] = none :=
  ⟨(runFresh shell0 (addRange 1 16)).getD shell0,
   ((addjob ((runFresh shell0 (addRange 1 16)).getD shell0) 17 BG "sleep 9 &\n").getD
     (0, shell0)).2,
   by decide, by decide, by decide, by decide⟩

/-! ## C9: `fg` and `bg` on an unknown job -/

/-- C9: for every job table, `do_bgfg` with a `%jobid` for which `getjobjid`
finds no job prints the one line "<arg>: No such job", and with a numeric pid
for which `getjobpid` finds no job the one line "(<pid>): No such process"; it
does nothing else: the job table and `nextjid` are unchanged, no signal is sent
and `waitfg` is not called. -/
theorem do_bgfg_unknown_job (s : Shell) (cmd arg : String) (rest : List String) :
    (arg.data.head? = some '%' → getjobjid s.jobs (atoi arg.data.tail) = none →
      ∃ s', do_bgfg s (cmd :: arg :: rest) = some (s', none) ∧
        s'.out = s.out ++ [arg ++ ": No such job\n"] ∧
        s'.jobs = s.jobs ∧ s'.nextjid = s.nextjid ∧ s'.kills = s.kills) ∧
    (arg.data.head?.map Char.isDigit = some true → getjobpid s.jobs (atoi arg.data) = none →
      ∃ s', do_bgfg s (cmd :: arg :: rest) = some (s', none) ∧
        s'.out = s.out ++ ["(" ++ fmt_d (atoi arg.data) ++ "): No such process\n"] ∧
        s'.jobs = s.jobs ∧ s'.nextjid = s.nextjid ∧ s'.kills = s.kills) := by
  constructor
  · intro hpc hg
    refine ⟨{ s with out := s.out ++ [arg ++ ": No such job\n"] }, ?_, rfl, rfl, rfl, rfl⟩
    simp [do_bgfg, hpc, hg]
  · intro hdg hg
    have hpc : ¬ arg.data.head? = some '%' := by
      intro h
      rw [h] at hdg
      revert hdg
      decide
    refine ⟨{ s with out := s.out ++ ["(" ++ fmt_d (atoi arg.data) ++ "): No such process\n"] },
      ?_, rfl, rfl, rfl, rfl⟩
    simp [do_bgfg, hpc, hdg, hg]

/-- Witness for C9: `fg %99` in a shell without jobs. -/
theorem do_bgfg_unknown_job_witness :
    "%99".data.head? = some '%' ∧ getjobjid shell0.jobs (atoi "%99".data.tail) = none ∧
    ∃ s', do_bgfg shell0 ["fg", "%99"] = some (s', none) ∧
      s'.out = shell0.out ++ ["%99" ++ ": No such job\n"] ∧
      s'.jobs = shell0.jobs ∧ s'.nextjid = shell0.nextjid ∧ s'.kills = shell0.kills :=
  ⟨by decide, by decide, (do_bgfg_unknown_job shell0 "fg" "%99" []).1 (by decide) (by decide)⟩

/-- The values of `atoi` past the range of `long` and `int`: saturation at
`LONG_MAX` and `LONG_MIN`, of which the conversion to `int` keeps -1 and 0. -/
theorem atoi_out_of_range :
    atoi "99999999999999999999".data = -1 ∧ atoi "18446744073709551621".data = -1 ∧
    atoi "-99999999999999999999".data = 0 ∧ atoi "4294967301".data = 5 ∧
    atoi " 42abc".data = 42 := by decide

/-- With a pid beyond the range of `long`, `fg` looks for the pid -1 and
reports it. -/
theorem do_bgfg_pid_out_of_range :
    do_bgfg shell0 ["fg", "99999999999999999999"] =
      some ({ shell0 with out := ["(-1): No such process\n"] }, none) := by decide

/-! ## C10: the handlers of SIGINT and SIGTSTP -/

/-- C10: for every job table, `sigint_handler` and `sigtstp_handler` leave the
job table, `nextjid` and the output as they are and only forward: when no slot
has state `FG` and a pid other than 0 neither sends a signal; otherwise each
sends the signal it received once, to the negated pid of the first such slot
(the `int` negation of the code, the mathematical one for a pid above
`INT_MIN`), the same target for both handlers. -/
theorem sigint_sigtstp_forward (s : Shell) (sig : Int) :
    (sigint_handler s sig).jobs = s.jobs ∧ (sigtstp_handler s sig).jobs = s.jobs ∧
    (sigint_handler s sig).nextjid = s.nextjid ∧ (sigtstp_handler s sig).nextjid = s.nextjid ∧
    (sigint_handler s sig).out = s.out ∧ (sigtstp_handler s sig).out = s.out ∧
    (((∀ j ∈ s.jobs, ¬ (j.state = FG ∧ j.pid ≠ 0)) ∧
        (sigint_handler s sig).kills = s.kills ∧ (sigtstp_handler s sig).kills = s.kills) ∨
      ∃ i j, FirstSlot (fun x => x.state = FG ∧ x.pid ≠ 0) s.jobs i ∧ s.jobs[i]? = some j ∧
        (sigint_handler s sig).kills = s.kills ++ [(intNeg j.pid, sig)] ∧
        (sigtstp_handler s sig).kills = s.kills ++ [(intNeg j.pid, sig)] ∧
        (-2147483648 < j.pid → j.pid < 2147483648 → intNeg j.pid = -j.pid)) := by
  have hcomm : (fun j : job_t => j.pid != 0 && j.state == FG) =
      (fun j : job_t => j.state == FG && j.pid != 0) := by
    funext j
    exact Bool.and_comm _ _
  unfold sigint_handler sigtstp_handler
  rw [hcomm]
  cases hf : firstIdx (fun j : job_t => j.state == FG && j.pid != 0) s.jobs with
  | none =>
    refine ⟨rfl, rfl, rfl, rfl, rfl, rfl, Or.inl ⟨?_, rfl, rfl⟩⟩
    intro j hj
    have := firstIdx_eq_none.1 hf j hj
    simpa using this
  | some i =>
    obtain ⟨⟨j, hj, hpj⟩, hmin⟩ := firstIdx_eq_some hf
    have hk : killSlot s i sig = { s with kills := s.kills ++ [(intNeg j.pid, sig)] } := by
      simp [killSlot, hj]
    refine ⟨by simp [hk], by simp [hk], by simp [hk], by simp [hk], by simp [hk], by simp [hk],
      Or.inr ⟨i, j, ⟨⟨j, hj, by simpa using hpj⟩, ?_⟩, hj, by simp [hk], by simp [hk], ?_⟩⟩
    · intro k jk hk hget
      simpa using hmin k jk hk hget
    · intro h1 h2
      unfold intNeg
      exact wrapInt_eq_self (by omega) (by omega)

/-- Witness for C10: SIGINT (2) while job 5 is the foreground job goes to -5. -/
theorem sigint_sigtstp_forward_witness :
    (sigint_handler { shell0 with jobs := [⟨0, 0, UNDEF, ""⟩, ⟨5, 1, FG, "ls\n"⟩] } 2).kills =
      [(-5, 2)] ∧
    (sigint_handler { shell0 with jobs := [⟨0, 0, UNDEF, ""⟩, ⟨5, 1, FG, "ls\n"⟩] } 2).jobs =
      [⟨0, 0, UNDEF, ""⟩, ⟨5, 1, FG, "ls\n"⟩] :=
  ⟨by decide,
   (sigint_sigtstp_forward { shell0 with jobs := [⟨0, 0, UNDEF, ""⟩, ⟨5, 1, FG, "ls\n"⟩] } 2).1⟩

/-! ## The tokenizer against the tokens of the line -/

theorem strchr_append (c : Char) (w r : List Char) (hw : c ∉ w) :
    strchr c (w ++ c :: r) = some (w, r) := by
  induction w with
  | nil => simp [strchr]
  | cons x w ih =>
    have hx : ¬ x = c := fun h => hw (by simp [h])
    have hw1 : c ∉ w := fun h => hw (List.mem_cons_of_mem x h)
    simp [strchr, hx, ih hw1]

theorem split_at_first (c : Char) (l : List Char) :
    c ∉ l ∨ ∃ w r, l = w ++ c :: r ∧ c ∉ w := by
  induction l with
  | nil => exact Or.inl (List.not_mem_nil c)
  | cons x l ih =>
    by_cases hx : x = c
    · exact Or.inr ⟨[], l, by simp [hx], List.not_mem_nil c⟩
    · rcases ih with h | ⟨w, r, hl, hw⟩
      · left
        intro hmem
        rcases List.mem_cons.1 hmem with h1 | h1
        · exact hx h1.symm
        · exact h h1
      · right
        refine ⟨x :: w, r, by simp [hl], ?_⟩
        intro hmem
        rcases List.mem_cons.1 hmem with h1 | h1
        · exact hx h1.symm
        · exact hw h1

theorem tokensFrom_word_append (w rest : List Char) (hw : ' ' ∉ w) (acc : List Char) :
    tokensFrom (TokState.word acc) (w ++ rest) = tokensFrom (TokState.word (acc ++ w)) rest := by
  induction w generalizing acc with
  | nil => simp
  | cons x w ih =>
    have hx : ¬ x = ' ' := fun h => hw (by simp [h])
    have hw1 : ' ' ∉ w := fun h => hw (List.mem_cons_of_mem x h)
    have hstep : tokensFrom (TokState.word acc) (x :: (w ++ rest)) =
        tokensFrom (TokState.word (acc ++ [x])) (w ++ rest) := by
      simp [tokensFrom, hx]
    rw [List.cons_append, hstep, ih hw1]
    simp

theorem tokensFrom_quoted_append (q rest : List Char) (hq : '\'' ∉ q) (acc : List Char) :
    tokensFrom (TokState.quoted acc) (q ++ rest) =
      tokensFrom (TokState.quoted (acc ++ q)) rest := by
  induction q generalizing acc with
  | nil => simp
  | cons x q ih =>
    have hx : ¬ x = '\'' := fun h => hq (by simp [h])
    have hq1 : '\'' ∉ q := fun h => hq (List.mem_cons_of_mem x h)
    have hstep : tokensFrom (TokState.quoted acc) (x :: (q ++ rest)) =
        tokensFrom (TokState.quoted (acc ++ [x])) (q ++ rest) := by
      simp [tokensFrom, hx]
    rw [List.cons_append, hstep, ih hq1]
    simp

theorem map_cons_eq_some {o : Option (List (List Char))} {a : List Char}
    {toks : List (List Char)} (h : o.map (fun ts => a :: ts) = some toks) :
    ∃ ts, o = some ts ∧ toks = a :: ts := by
  cases o with
  | none => simp at h
  | some ts =>
    simp only [Option.map_some', Option.some.injEq] at h
    exact ⟨ts, rfl, h.symm⟩

theorem parseLoop_step (fuel : Nat) (arg rest : List Char) (argv : List String)
    (h : argv.length < MAXARGS) :
    parseLoop (fuel + 1) (some (arg, rest)) argv =
      parseLoop fuel (nextDelim (skipSpaces rest)) (argv ++ [String.mk arg]) := by
  simp [parseLoop, h]

theorem parseLoop_tokens (n : Nat) :
    ∀ (body : List Char), body.length ≤ n → ∀ (fuel : Nat) (argv : List String)
      (toks : List (List Char)), body.length < fuel →
      tokensFrom TokState.between body = some toks →
      argv.length + toks.length < MAXARGS →
      parseLoop fuel (nextDelim (skipSpaces (body ++ [' ']))) argv =
        some (argv ++ toks.map String.mk) := by
  induction n with
  | zero =>
    intro body hn fuel argv toks _ htok _
    have hb : body = [] := List.length_eq_zero.1 (Nat.le_zero.1 hn)
    subst hb
    simp only [tokensFrom, Option.some.injEq] at htok
    subst htok
    cases fuel <;> simp [skipSpaces, nextDelim, strchr, parseLoop]
  | succ n ih =>
    intro body hn fuel argv toks hfuel htok hargs
    cases body with
    | nil =>
      simp only [tokensFrom, Option.some.injEq] at htok
      subst htok
      cases fuel <;> simp [skipSpaces, nextDelim, strchr, parseLoop]
    | cons c r =>
      have hr : r.length ≤ n := by simpa using hn
      obtain ⟨f, rfl⟩ : ∃ f, fuel = f + 1 := ⟨fuel - 1, by simp at hfuel; omega⟩
      have hrf : r.length < f := by simp at hfuel; omega
      by_cases hsp : c = ' '
      · subst hsp
        simp only [tokensFrom, if_true] at htok
        have := ih r hr (f + 1) argv toks (by omega) htok hargs
        simpa [skipSpaces] using this
      · by_cases hq : c = '\''
        · subst hq
          simp only [tokensFrom, hsp, if_false, if_true] at htok
          rcases split_at_first '\'' r with hno | ⟨q, r2, hr2, hqn⟩
          · have h0 := tokensFrom_quoted_append r [] hno []
            simp only [List.append_nil, List.nil_append] at h0
            rw [h0] at htok
            simp [tokensFrom] at htok
          · subst hr2
            rw [tokensFrom_quoted_append q _ hqn []] at htok
            simp only [List.nil_append, tokensFrom, if_true] at htok
            obtain ⟨ts, hts, rfl⟩ := map_cons_eq_some htok
            have hlen2 : r2.length ≤ n := by simp at hr; omega
            have hd : nextDelim (skipSpaces (('\'' :: (q ++ '\'' :: r2)) ++ [' '])) =
                some (q, r2 ++ [' ']) := by
              have := strchr_append '\'' q (r2 ++ [' ']) hqn
              simpa [skipSpaces, nextDelim] using this
            rw [hd, parseLoop_step f q _ argv (by simp at hargs; omega)]
            have := ih r2 hlen2 f (argv ++ [String.mk q]) ts (by simp at hrf; omega) hts
              (by simp at hargs ⊢; omega)
            simpa using this
        · simp only [tokensFrom, hsp, hq, if_false] at htok
          rcases split_at_first ' ' r with hno | ⟨w, r2, hr2, hwn⟩
          · have h0 := tokensFrom_word_append r [] hno [c]
            simp only [List.append_nil] at h0
            rw [h0] at htok
            simp only [tokensFrom, Option.some.injEq] at htok
            subst htok
            have hcr : ' ' ∉ c :: r := by
              intro hmem
              rcases List.mem_cons.1 hmem with h1 | h1
              · exact hsp h1.symm
              · exact hno h1
            have hd : nextDelim (skipSpaces ((c :: r) ++ [' '])) = some (c :: r, []) := by
              have := strchr_append ' ' (c :: r) [] hcr
              simpa [skipSpaces, nextDelim, hsp, hq] using this
            rw [hd, parseLoop_step f (c :: r) [] argv (by simp at hargs; omega)]
            cases f <;> simp [skipSpaces, nextDelim, strchr, parseLoop]
          · subst hr2
            rw [tokensFrom_word_append w _ hwn [c]] at htok
            simp only [tokensFrom, if_true] at htok
            obtain ⟨ts, hts, rfl⟩ := map_cons_eq_some htok
            have hlen2 : r2.length ≤ n := by simp at hr; omega
            have hcw : ' ' ∉ c :: w := by
              intro hmem
              rcases List.mem_cons.1 hmem with h1 | h1
              · exact hsp h1.symm
              · exact hwn h1
            have hd : nextDelim (skipSpaces ((c :: (w ++ ' ' :: r2)) ++ [' '])) =
                some (c :: w, r2 ++ [' ']) := by
              have := strchr_append ' ' (c :: w) (r2 ++ [' ']) hcw
              simpa [skipSpaces, nextDelim, hsp, hq] using this
            rw [hd, parseLoop_step f (c :: w) _ argv (by simp at hargs; omega)]
            have := ih r2 hlen2 f (argv ++ [String.mk (c :: w)]) ts (by simp at hrf; omega) hts
              (by simp at hargs ⊢; omega)
            simpa using this

/-! ## C11: the background flag of `parseline` -/

/-- C11 as stated fails: the final token of the line `ls &x` is `&x`, not the
marker `&`, yet `parseline` returns 1 and takes the token `&x` out of the
argument vector. -/
theorem parseline_background_without_marker :
    "ls &x\n".data.getLast? = some '\n' ∧ "ls &x\n".utf8ByteSize < MAXLINE ∧
    lineTokens "ls &x\n" = some ["ls", "&x"] ∧
    ["ls", "&x"].getLast? = some "&x" ∧ "&x" ≠ "&" ∧
    parseline "ls &x\n" = some (1, ["ls"]) :=
  ⟨by decide, by decide, by decide, by decide, by decide, by decide⟩

/-- The array `argv` of `MAXARGS` entries is too small for a line of 128
tokens, which is shorter than `MAXLINE`: `parseline` stores past its end. -/
theorem parseline_argv_overflow :
    (String.join (List.replicate 128 "a ") ++ "\n").utf8ByteSize < MAXLINE ∧
    (lineTokens (String.join (List.replicate 128 "a ") ++ "\n")).map List.length = some 128 ∧
    parseline (String.join (List.replicate 128 "a ") ++ "\n") = none :=
  ⟨by decide, by decide, by decide⟩

/-- C11, amended: for every newline-terminated command line shorter than
`MAXLINE` in which every single quote that opens a token is closed and that
contains at least one and fewer than `MAXARGS` tokens, `parseline` returns
non-zero if and only if the final token of the line begins with the character
`&`; when it does, that final token is removed from the argument vector, and
when it does not, the argument vector holds every token of the line in order
(a single-quoted span counting as one token). -/
theorem parseline_background (cmdline : String) (toks : List String)
    (hnl : cmdline.data.getLast? = some '\n')
    (hlen : cmdline.utf8ByteSize < MAXLINE)
    (htoks : lineTokens cmdline = some toks)
    (hne : toks ≠ [])
    (hargs : toks.length < MAXARGS) :
    ∃ bg argv, parseline cmdline = some (bg, argv) ∧
      (bg ≠ 0 ↔ ∃ last, toks.getLast? = some last ∧ last.data.head? = some '&') ∧
      (bg ≠ 0 → argv = toks.dropLast) ∧
      (bg = 0 → argv = toks) := by
  have hcpy : strcpy MAXLINE cmdline = some cmdline := by simp [strcpy, hlen]
  have hdata : cmdline.data ≠ [] := by
    intro h
    rw [h] at hnl
    simp at hnl
  unfold lineTokens at htoks
  cases hts : tokensFrom TokState.between cmdline.data.dropLast with
  | none => simp [hts] at htoks
  | some ts =>
    simp only [hts, Option.map_some', Option.some.injEq] at htoks
    have hloop := parseLoop_tokens cmdline.data.dropLast.length cmdline.data.dropLast
      (Nat.le_refl _) (cmdline.data.dropLast ++ [' ']).length [] ts (by simp) hts
      (by rw [← htoks] at hargs; simpa using hargs)
    simp only [List.nil_append, htoks] at hloop
    have hlen0 : ¬ toks.length = 0 := fun h => hne (List.length_eq_zero.1 h)
    obtain ⟨last, hlast⟩ : ∃ last, toks.getLast? = some last := by
      cases hl : toks.getLast? with
      | none => exact absurd (List.getLast?_eq_none_iff.1 hl) hne
      | some last => exact ⟨last, rfl⟩
    by_cases hamp : last.data.head? = some '&'
    · refine ⟨1, toks.dropLast, ?_, ?_, fun _ => rfl, fun h => absurd h (by decide)⟩
      · unfold parseline
        rw [hcpy]
        simp only [hdata, if_false]
        rw [hloop]
        simp only [hargs, if_true, hlen0, if_false, hlast, hamp]
      · constructor
        · intro _
          exact ⟨last, hlast, hamp⟩
        · intro _
          decide
    · refine ⟨0, toks, ?_, ?_, fun h => absurd rfl h, fun _ => rfl⟩
      · unfold parseline
        rw [hcpy]
        simp only [hdata, if_false]
        rw [hloop]
        simp only [hargs, if_true, hlen0, if_false, hlast, hamp]
      · constructor
        · intro h
          exact absurd rfl h
        · rintro ⟨l2, hl2, hamp2⟩
          rw [hlast] at hl2
          cases hl2
          exact absurd hamp2 hamp

/-- Witness for C11, amended: the line `sleep 5 &` runs in the background, with
the arguments `sleep` and `5`. -/
theorem parseline_background_witness :
    ∃ bg argv, parseline "sleep 5 &\n" = some (bg, argv) ∧
      (bg ≠ 0 ↔ ∃ last, ["sleep", "5", "&"].getLast? = some last ∧
        last.data.head? = some '&') ∧
      (bg ≠ 0 → argv = ["sleep", "5", "&"].dropLast) ∧
      (bg = 0 → argv = ["sleep", "5", "&"]) :=
  parseline_background "sleep 5 &\n" ["sleep", "5", "&"]
    (by decide) (by decide) (by decide) (by decide) (by decide)

end Tsh
